import Mathlib

/-!
Shallow embedding of the unic-app-sdk MCP server core:
the corpus query primitives (article-service), the widget asset
resolver/inliner (widget.js) and the CORS utilities (cors-utils.js),
together with theorems checking the natural-language specification.

JavaScript `Date.parse` is a host primitive, not code of this repository;
every definition that needs it takes an explicit `parse : String → Option Int`
argument (`none` models `NaN`).  JavaScript string truthiness (`undefined`
and `""` are falsy) is modelled by `jsTruthyStr` on `Option String`.
-/

/-- JS truthiness of an optional string: `undefined` and `""` are falsy. -/
def jsTruthyStr : Option String → Bool
  | none => false
  | some s => s != ""

/-- Exact prefix test on character lists. -/
def listStartsWith : List Char → List Char → Bool
  | [], _ => true
  | _ :: _, [] => false
  | p :: ps, c :: cs => (c == p) && listStartsWith ps cs

/-- Exact substring test on character lists (JS `String.prototype.includes`). -/
def listHasSub (pat : List Char) : List Char → Bool
  | [] => pat.isEmpty
  | c :: cs => listStartsWith pat (c :: cs) || listHasSub pat cs

/-- JS `s.includes(sub)`. -/
def jsIncludes (s sub : String) : Bool := listHasSub sub.data s.data

/-- JS `String.prototype.toLowerCase`, modelled character-wise. -/
def jsToLower (s : String) : String := String.mk (s.data.map Char.toLower)

/-- JS `String.prototype.trim`: strip leading and trailing whitespace. -/
def jsTrim (s : String) : String :=
  String.mk
    (((s.data.dropWhile Char.isWhitespace).reverse.dropWhile
        Char.isWhitespace).reverse)

/-- JS `s.startsWith(pre)`. -/
def jsStartsWith (s pre : String) : Bool := listStartsWith pre.data s.data

/-- JS `s.endsWith(suff)`. -/
def jsEndsWith (s suff : String) : Bool :=
  listStartsWith suff.data.reverse s.data.reverse

/-- Character comparison by code point (JS compares UTF-16 code units). -/
def charLT (a b : Char) : Bool := a.toNat < b.toNat

/-- Lexicographic order on character lists: the order used by the default
`Array.prototype.sort` comparator on strings. -/
def listLexLE : List Char → List Char → Bool
  | [], _ => true
  | _ :: _, [] => false
  | a :: as, b :: bs =>
    if charLT a b then true
    else if charLT b a then false
    else listLexLE as bs

/-- Lexicographic order on strings. -/
def stringLE (a b : String) : Bool := listLexLE a.data b.data

/-- The `author` field of a CMS record: either a plain string or a
structured object carrying an optional `name`. -/
inductive JsAuthor where
  | str (value : String)
  | obj (name : Option String)
deriving DecidableEq, Repr

/-- A raw record as read from the blog-data JSON file: every field may be
absent. -/
structure RawArticle where
  slug : Option String := none
  title : Option String := none
  publicationDate : Option String := none
  lead : Option String := none
  author : Option JsAuthor := none
  link : Option String := none
deriving DecidableEq, Repr

/-- An article held in the runtime index after `loadMagazineArticles`:
slug, title and publicationDate are definite (trimmed) strings. -/
structure Article where
  slug : String
  title : String
  publicationDate : String
  lead : Option String := none
  author : Option JsAuthor := none
  link : Option String := none
deriving DecidableEq, Repr

/-- CONFIG.DEFAULT_LIMIT from article-service. -/
def DEFAULT_LIMIT : Int := 10

/-- CONFIG.MAX_LIMIT from article-service. -/
def MAX_LIMIT : Int := 100

/-- `clampLimit` from article-service: `undefined` yields the default,
otherwise `Math.min(Math.max(1, limit), CONFIG.MAX_LIMIT)`. -/
def clampLimit : Option Int → Int
  | none => DEFAULT_LIMIT
  | some limit => min (max 1 limit) MAX_LIMIT

/-- The number of results actually kept by `.slice(0, clampLimit(limit))`. -/
def effectiveLimit (limit : Option Int) : Nat := (clampLimit limit).toNat

/-- `isValidDate` from article-service: `!isNaN(new Date(s).getTime())`. -/
def isValidDate (parse : String → Option Int) (dateString : String) : Bool :=
  (parse dateString).isSome

/-- `getAuthorRaw` from article-service. -/
def getAuthorRaw (article : Article) : Option String :=
  match article.author with
  | none => none
  | some (.str s) =>
    if s == "" then none
    else
      let trimmed := jsTrim s
      if trimmed.length > 0 then some trimmed else none
  | some (.obj name) =>
    match name with
    | none => none
    | some n =>
      let t := jsTrim n
      if t.length > 0 then some t else none

/-- `getAuthorName` from article-service: raw author or `'Editorial team'`. -/
def getAuthorName (article : Article) : String :=
  (getAuthorRaw article).getD "Editorial team"

/-- `authorMatches` from article-service: the raw author name (no fallback)
lowercased, substring-tested against the lowercased query. -/
def authorMatches (article : Article) (lowerQuery : String) : Bool :=
  match getAuthorRaw article with
  | some name => jsIncludes (jsToLower name) lowerQuery
  | none => false

/-- Title clause of the search predicate in `searchArticles`. -/
def titleMatch (lowerQuery : String) (article : Article) : Bool :=
  jsIncludes (jsToLower article.title) lowerQuery

/-- Lead clause of the search predicate in `searchArticles`
(`article.lead?.toLowerCase().includes(q)`, `undefined` lead is falsy). -/
def leadMatch (lowerQuery : String) (article : Article) : Bool :=
  match article.lead with
  | some lead => jsIncludes (jsToLower lead) lowerQuery
  | none => false

/-- The filter predicate of `searchArticles`: title OR lead OR author. -/
def searchPred (lowerQuery : String) (article : Article) : Bool :=
  titleMatch lowerQuery article || leadMatch lowerQuery article ||
    authorMatches article lowerQuery

/-- `searchArticles` from article-service. -/
def searchArticles (articles : List Article) (query : String)
    (limit : Option Int) : List Article :=
  let clampedLimit := effectiveLimit limit
  let lowerQuery := jsToLower query
  (articles.filter (searchPred lowerQuery)).take clampedLimit

/-- `searchArticlesByTitle` from article-service. -/
def searchArticlesByTitle (articles : List Article) (query : String)
    (limit : Option Int) : List Article :=
  let clampedLimit := effectiveLimit limit
  let lowerQuery := jsToLower query
  (articles.filter (titleMatch lowerQuery)).take clampedLimit

/-- `isLoadedArticle` from article-service. -/
def isLoadedArticle (parse : String → Option Int) (article : RawArticle) :
    Bool :=
  let slug := article.slug.map jsTrim
  let title := article.title.map jsTrim
  let publicationDate := article.publicationDate.map jsTrim
  jsTruthyStr slug && jsTruthyStr title && jsTruthyStr publicationDate &&
    (match publicationDate with
     | some s => (parse s).isSome
     | none => false)

/-- The normalisation applied to each kept record inside
`loadMagazineArticles` (`{...article, slug, title, publicationDate}` with the
three fields trimmed).  The `getD ""` defaults are never reached for records
that pass `isLoadedArticle`. -/
def loadArticle (article : RawArticle) : Article :=
  { slug := jsTrim (article.slug.getD "")
    title := jsTrim (article.title.getD "")
    publicationDate := jsTrim (article.publicationDate.getD "")
    lead := article.lead
    author := article.author
    link := article.link }

/-- Pure core of `loadMagazineArticles`: filter by `isLoadedArticle`, then
normalise. -/
def loadMagazineArticles (parse : String → Option Int)
    (articles : List RawArticle) : List Article :=
  (articles.filter (isLoadedArticle parse)).map loadArticle

/-- The slug lookup index built by `loadMagazineArticles`
(`articlesBySlug.set` in load order, so the last record wins). -/
def lookupBySlug (articles : List Article) (slug : String) : Option Article :=
  articles.reverse.find? (fun article => article.slug == slug)

/-- Timestamp of `new Date(article.publicationDate).getTime()`.  The `getD 0`
default totalises the unreachable `NaN` case (loaded articles always parse). -/
def dateKey (parse : String → Option Int) (article : Article) : Int :=
  (parse article.publicationDate).getD 0

/-- The JS comparator `(a, b) => dateB - dateA`, expressed as the "a may come
before b" relation `cmp(a, b) <= 0`, i.e. `dateB <= dateA`. -/
def dateDescLE (parse : String → Option Int) (a b : Article) : Bool :=
  decide (dateKey parse b ≤ dateKey parse a)

/-- The stable descending-by-date sort: `Array.prototype.sort` is required to
be stable, modelled by `List.mergeSort`. -/
def sortByDateDesc (parse : String → Option Int) (articles : List Article) :
    List Article :=
  articles.mergeSort (dateDescLE parse)

/-- The filter `new Date(article.publicationDate) >= new Date(startDate)`:
a `NaN` on either side makes the comparison false. -/
def startBoundPred (parse : String → Option Int) (startDate : String)
    (article : Article) : Bool :=
  match parse article.publicationDate, parse startDate with
  | some t, some s => decide (s ≤ t)
  | _, _ => false

/-- The filter `new Date(article.publicationDate) <= new Date(endDate)`. -/
def endBoundPred (parse : String → Option Int) (endDate : String)
    (article : Article) : Bool :=
  match parse article.publicationDate, parse endDate with
  | some t, some e => decide (t ≤ e)
  | _, _ => false

/-- The list reaching the sort inside `filterArticlesByDateRange`, after the
two truthiness-guarded bound filters. -/
def rangeMatches (parse : String → Option Int) (articles : List Article)
    (startDate endDate : Option String) : List Article :=
  let afterStart :=
    if jsTruthyStr startDate then
      articles.filter (startBoundPred parse (startDate.getD ""))
    else articles
  if jsTruthyStr endDate then
    afterStart.filter (endBoundPred parse (endDate.getD ""))
  else afterStart

/-- `filterArticlesByDateRange` from article-service: validate each truthy
bound (throwing on an unparseable one), filter, sort descending, truncate. -/
def filterArticlesByDateRange (parse : String → Option Int)
    (articles : List Article) (startDate endDate : Option String)
    (limit : Option Int) : Except String (List Article) :=
  let clampedLimit := effectiveLimit limit
  if jsTruthyStr startDate && !isValidDate parse (startDate.getD "") then
    Except.error ("Invalid start date format: " ++ startDate.getD "" ++
      ". Expected ISO format (YYYY-MM-DD)")
  else if jsTruthyStr endDate && !isValidDate parse (endDate.getD "") then
    Except.error ("Invalid end date format: " ++ endDate.getD "" ++
      ". Expected ISO format (YYYY-MM-DD)")
  else
    Except.ok
      ((sortByDateDesc parse (rangeMatches parse articles startDate endDate)).take
        clampedLimit)

/-- The filter predicate of `filterArticlesByAuthor`. -/
def authorFilterPred (lowerAuthor : String) (article : Article) : Bool :=
  authorMatches article lowerAuthor

/-- `filterArticlesByAuthor` from article-service. -/
def filterArticlesByAuthor (parse : String → Option Int)
    (articles : List Article) (authorName : String) (limit : Option Int) :
    List Article :=
  let clampedLimit := effectiveLimit limit
  let lowerAuthor := jsToLower authorName
  ((articles.filter (authorFilterPred lowerAuthor)).mergeSort
      (dateDescLE parse)).take clampedLimit

/-- Digit-sequence parser used by the concrete witness date parser. -/
def parseDigits (s : String) : Option Nat :=
  if s.length > 0 && s.data.all Char.isDigit then
    some (s.data.foldl (fun n c => n * 10 + (c.toNat - 48)) 0)
  else none

/-- Split a character list at a separator character (kernel-reducible
replacement for `String.splitOn` with a one-character separator). -/
def splitCharAux (sep : Char) : List Char → List Char → List (List Char)
  | [], acc => [acc.reverse]
  | c :: cs, acc =>
    if c == sep then acc.reverse :: splitCharAux sep cs []
    else splitCharAux sep cs (c :: acc)

/-- Split a string at `-` separators. -/
def splitOnDash (s : String) : List String :=
  (splitCharAux '-' s.data []).map String.mk

/-- A concrete instantiation of the abstract `Date.parse` parameter used by
witnesses: accepts `YYYY-MM-DD` with plausible month/day ranges and returns a
timestamp that is strictly monotone in (year, month, day). -/
def isoDateParse (s : String) : Option Int :=
  match splitOnDash s with
  | [y, m, d] =>
    match parseDigits y, parseDigits m, parseDigits d with
    | some yn, some mn, some dn =>
      if 1 ≤ mn && mn ≤ 12 && 1 ≤ dn && dn ≤ 31 then
        some (Int.ofNat (yn * 500 + mn * 31 + dn))
      else none
    | _, _, _ => none
  | _ => none

/-- Case-insensitive single-character match: list character `c` against the
pre-lowered pattern character `p` (the `i` regex flag). -/
def lowerEq (c p : Char) : Bool := c.toLower == p

/-- Case-insensitive prefix test (pattern pre-lowered). -/
def startsWithCI : List Char → List Char → Bool
  | [], _ => true
  | _ :: _, [] => false
  | p :: ps, c :: cs => lowerEq c p && startsWithCI ps cs

/-- Case-insensitive substring test (pattern pre-lowered). -/
def hasCI (pat : List Char) : List Char → Bool
  | [] => pat.isEmpty
  | c :: cs => startsWithCI pat (c :: cs) || hasCI pat cs

/-- The global case-insensitive replace `source.replace(/<\/word/gi,
'<\\/word')`: each occurrence of `</word` (any case) is rewritten to the
literal `<\/word`, scanning left to right without rescanning replacements. -/
def escapeClose (word : List Char) : List Char → List Char
  | [] => []
  | c :: cs =>
    if startsWithCI ('<' :: '/' :: word) (c :: cs) then
      '<' :: '\\' :: '/' :: (word ++ escapeClose word (cs.drop (word.length + 1)))
    else c :: escapeClose word cs
termination_by l => l.length
decreasing_by
  · simp only [List.length_cons, List.length_drop]
    omega
  · simp only [List.length_cons]
    omega

/-- `escapeForInlineScript` from widget.js. -/
def escapeForInlineScript (source : String) : String :=
  String.mk (escapeClose "script".data source.data)

/-- `escapeForInlineStyle` from widget.js. -/
def escapeForInlineStyle (source : String) : String :=
  String.mk (escapeClose "style".data source.data)

/-- The file-system view `buildWidgetHtml` observes for one entry name:
the prebuilt `dist/{entryName}.html` content when that file exists, and the
asset directory as a name→content listing when it exists. -/
structure WidgetFS where
  distHtml : Option String := none
  assetsDir : Option (List (String × String)) := none
deriving DecidableEq, Repr

/-- Names in the asset directory (`fs.readdirSync(uiAssetsDir)`). -/
def dirFiles (dir : List (String × String)) : List String := dir.map Prod.fst

/-- The hashed-pattern filter of `resolveWidgetAsset`:
`file.startsWith(entryName + "-") && file.endsWith(extension)`. -/
def hashedCandidates (entryName extension : String) (files : List String) :
    List String :=
  files.filter (fun file =>
    jsStartsWith file (entryName ++ "-") && jsEndsWith file extension)

/-- `resolveWidgetAsset` from widget.js: hashed candidates
`{entryName}-...{extension}` sorted lexicographically, last one taken;
otherwise the un-hashed `{entryName}{extension}` when listed. -/
def resolveWidgetAsset (entryName extension : String) (files : List String) :
    Except String String :=
  match ((hashedCandidates entryName extension files).mergeSort
      stringLE).getLast? with
  | some hashed => Except.ok hashed
  | none =>
    let fallback := entryName ++ extension
    if files.contains fallback then Except.ok fallback
    else
      Except.error ("Missing " ++ extension ++ " asset for widget \"" ++
        entryName ++ "\" inside the asset directory. Build the UI bundle first.")

/-- The inline HTML template of `buildWidgetHtml`. -/
def widgetHtmlTemplate (rootId safeCss safeJs : String) : String :=
  "<!doctype html>\n\t\t\t<html>\n\t\t\t<head>\n\t\t\t\t<style>" ++ safeCss ++
    "</style>\n\t\t\t</head>\n\t\t\t<body>\n\t\t\t\t<div id=\"" ++ rootId ++
    "\"></div>\n\t\t\t\t<script type=\"module\">" ++ safeJs ++
    "</script>\n\t\t\t</body>\n\t\t\t</html>"

/-- The `try` body of `buildWidgetHtml`: prebuilt document first, otherwise
resolve, read and inline the hashed js/css assets; every `throw` becomes an
`Except.error`. -/
def buildWidgetHtmlCore (fsys : WidgetFS) (entryName rootId : String) :
    Except String String :=
  match fsys.distHtml with
  | some html => Except.ok html
  | none =>
    match fsys.assetsDir with
    | none =>
      Except.error ("Widget assets not found. Run \"pnpm --filter " ++
        "unic-ui-sdk build\" first.")
    | some dir =>
      let files := dirFiles dir
      match resolveWidgetAsset entryName ".js" files,
            resolveWidgetAsset entryName ".css" files with
      | Except.ok jsAsset, Except.ok cssAsset =>
        match List.lookup jsAsset dir, List.lookup cssAsset dir with
        | some jsContents, some cssContents =>
          Except.ok (widgetHtmlTemplate rootId
            (escapeForInlineStyle cssContents)
            (escapeForInlineScript jsContents))
        | none, _ => Except.error ("Widget JS asset not found: " ++ jsAsset)
        | _, none => Except.error ("Widget CSS asset not found: " ++ cssAsset)
      | Except.error e, _ => Except.error e
      | _, Except.error e => Except.error e

/-- The `catch` branch of `buildWidgetHtml`: the generic
`fallback-widget.html` from the asset directory when present, else the
minimal placeholder. -/
def widgetFallbackHtml (fsys : WidgetFS) : String :=
  match fsys.assetsDir with
  | some dir =>
    match List.lookup "fallback-widget.html" dir with
    | some fb => fb
    | none => "<div>Widget unavailable</div>"
  | none => "<div>Widget unavailable</div>"

/-- `buildWidgetHtml` from widget.js: the try body, with every failure
recovered by the fallback document or the placeholder. -/
def buildWidgetHtml (fsys : WidgetFS) (entryName rootId : String) : String :=
  match buildWidgetHtmlCore fsys entryName rootId with
  | Except.ok html => html
  | Except.error _ => widgetFallbackHtml fsys

/-- A resolved widget descriptor (widget.js). -/
structure WidgetDescriptor where
  id : String
  title : String
  templateUri : String
  invoking : String
  invoked : String
  html : String
deriving DecidableEq, Repr

/-- `initializeArticleListWidget` from widget.js; the `try` body cannot fail
in the pure model (all file-system faults are absorbed by
`buildWidgetHtml`), so the `catch → null` branch is unreachable. -/
def initializeArticleListWidget (fsys : WidgetFS) : Option WidgetDescriptor :=
  some
    { id := "unic-article-list"
      title := "Unic magazine article list"
      templateUri := "ui://widget/article-list.html"
      invoking := "Curating magazine stories"
      invoked := "Article list ready"
      html := buildWidgetHtml fsys "article-list" "article-list-root" }

/-- JS string interpolation of a possibly-undefined value. -/
def jsStringOfOption : Option String → String
  | some s => s
  | none => "undefined"

/-- `formatArticleList` from article-service; `fmtDate` stands for the host
primitive `toLocaleDateString`. -/
def formatArticleList (fmtDate : String → String) (articles : List Article) :
    String :=
  if articles.length = 0 then "No articles found."
  else
    String.intercalate "\n\n"
      (articles.enum.map (fun p =>
        toString (p.1 + 1) ++ ". **" ++ p.2.title ++ "**\n        📅 " ++
          fmtDate p.2.publicationDate ++ " | ✍️ " ++ getAuthorName p.2 ++
          "\n        🔗 Read more: " ++ jsStringOfOption p.2.link))

/-- The shape of an MCP tool response: text content blocks, and whether a
structured widget payload is attached. -/
structure ToolResponse where
  content : List String
  hasStructuredContent : Bool
deriving DecidableEq, Repr

/-- The `search_articles` tool handler from server.js: widget branch with
structured payload when a descriptor exists, text-only fallback otherwise. -/
def searchToolCall (fmtDate : String → String)
    (widget : Option WidgetDescriptor) (articles : List Article)
    (query : String) (limit : Int) : ToolResponse :=
  let results := searchArticles articles query (some limit)
  match widget with
  | some _ =>
    { content := ["Found " ++ toString results.length ++
        " article(s) matching \"" ++ query ++ "\"" ++
        (if limit < MAX_LIMIT then
          " (showing up to " ++ toString limit ++ ")" else "") ++
        ".\n\t\t\t\t\t[DO NOT show published date and author name.]\n\t\t\t\t\t**Quick Reference:** display summary of search results as a whole.\n\t\t\t\t💡 **Try:** display summary of an article."]
      hasStructuredContent := true }
  | none =>
    { content := ["Found " ++ toString results.length ++
        " article(s) matching \"" ++ query ++ "\":\n\n" ++
        formatArticleList fmtDate results]
      hasStructuredContent := false }

/-- The default allow-list from cors-utils.js. -/
def DEFAULT_ALLOWED_ORIGINS : List String :=
  ["https://chatgpt.com", "https://chat.openai.com"]

/-- Split a string at `,` separators (kernel-reducible `String.split`). -/
def splitOnComma (s : String) : List String :=
  (splitCharAux ',' s.data []).map String.mk

/-- `resolveAllowedOrigin` from cors-utils.js.  `isDevelopment` is
`NODE_ENV !== 'production'`; `allowedOriginEnvRaw` is
`process.env.ALLOWED_ORIGIN`; `requestOrigin` is the request header. -/
def resolveAllowedOrigin (isDevelopment : Bool)
    (allowedOriginEnvRaw : Option String) (requestOrigin : Option String) :
    String :=
  if isDevelopment then
    if jsTruthyStr requestOrigin then requestOrigin.getD "" else "*"
  else
    let allowedOriginEnv := allowedOriginEnvRaw.map jsTrim
    if jsTruthyStr allowedOriginEnv then
      let allowedOrigins :=
        ((splitOnComma (allowedOriginEnv.getD "")).map jsTrim).filter
          (fun origin => origin.length > 0)
      if jsTruthyStr requestOrigin &&
          allowedOrigins.contains (requestOrigin.getD "") then
        requestOrigin.getD ""
      else
        match allowedOrigins.head? with
        | some first => first
        | none => "https://chatgpt.com"
    else
      if jsTruthyStr requestOrigin &&
          DEFAULT_ALLOWED_ORIGINS.contains (requestOrigin.getD "") then
        requestOrigin.getD ""
      else "https://chatgpt.com"

/-- The CORS header pair produced by `getCorsHeaders`: the
`Access-Control-Allow-Origin` value, and whether
`Access-Control-Allow-Credentials: 'true'` is attached. -/
structure CorsHeaders where
  allowOrigin : String
  allowCredentials : Bool
deriving DecidableEq, Repr

/-- `getCorsHeaders` from cors-utils.js: credentials are attached exactly
when the resolved origin is not the wildcard. -/
def getCorsHeaders (isDevelopment : Bool) (allowedOriginEnvRaw : Option String)
    (requestOrigin : Option String) : CorsHeaders :=
  let allowedOrigin :=
    resolveAllowedOrigin isDevelopment allowedOriginEnvRaw requestOrigin
  { allowOrigin := allowedOrigin
    allowCredentials := allowedOrigin != "*" }

/-- Demo corpus entry from the specification: `{slug:"a", title:"Intro to X",
date:"2024-01-01"}`. -/
def demoArticleA : Article :=
  { slug := "a", title := "Intro to X", publicationDate := "2024-01-01" }

/-- Demo corpus entry from the specification: `{slug:"b", title:"X continued",
date:"2024-02-01"}`. -/
def demoArticleB : Article :=
  { slug := "b", title := "X continued", publicationDate := "2024-02-01" }

/-- An article without any author field: its display name falls back to
`'Editorial team'`. -/
def demoArticleNoAuthor : Article :=
  { slug := "n", title := "A quarterly report", publicationDate := "2024-03-01" }

/-- A raw record matching the spec's first demo corpus entry. -/
def demoRaw : RawArticle :=
  { slug := some "a", title := some "Intro to X",
    publicationDate := some "2024-01-01" }

/-- A third demo article sharing its publication date with `demoArticleA`. -/
def demoArticleTie : Article :=
  { slug := "c", title := "Another X", publicationDate := "2024-01-01" }

/-- A demo corpus, already descending by date with a tie on the last two. -/
def demoCorpus : List Article := [demoArticleB, demoArticleA, demoArticleTie]

/-- C1 (counterexample): the claim says a non-positive requested limit falls
back to the default (10); in fact `clampLimit` sends 0 to the lower bound 1,
and a search over a two-match corpus with limit 0 returns a single article,
not ten's worth. -/
theorem c1_nonpositive_limit_counterexample :
    clampLimit (some 0) = 1 ∧ clampLimit (some 0) ≠ DEFAULT_LIMIT ∧
    searchArticles [demoArticleA, demoArticleB] "x" (some 0) =
      [demoArticleA] := by
  refine ⟨rfl, by decide, by decide⟩

/-- C1 (amended): the effective limit is the default (10) when the limit is
missing, 100 when the request exceeds 100, and the lower bound 1 (not the
default) when the request is non-positive; it always lies in [1, 100], and
every query operation returns at most that many results. -/
theorem c1_effective_limit_clamping :
    (clampLimit none = DEFAULT_LIMIT) ∧
    (∀ l : Int, 100 < l → clampLimit (some l) = 100) ∧
    (∀ l : Int, l ≤ 0 → clampLimit (some l) = 1) ∧
    (∀ lim : Option Int, 1 ≤ clampLimit lim ∧ clampLimit lim ≤ 100) ∧
    (∀ (articles : List Article) (query : String) (lim : Option Int),
      (searchArticles articles query lim).length ≤ effectiveLimit lim) ∧
    (∀ (articles : List Article) (query : String) (lim : Option Int),
      (searchArticlesByTitle articles query lim).length ≤ effectiveLimit lim) ∧
    (∀ (parse : String → Option Int) (articles : List Article)
        (authorName : String) (lim : Option Int),
      (filterArticlesByAuthor parse articles authorName lim).length ≤
        effectiveLimit lim) ∧
    (∀ (parse : String → Option Int) (articles : List Article)
        (startDate endDate : Option String) (lim : Option Int)
        (res : List Article),
      filterArticlesByDateRange parse articles startDate endDate lim =
        Except.ok res → res.length ≤ effectiveLimit lim) := by
  refine ⟨rfl, ?_, ?_, ?_, ?_, ?_, ?_, ?_⟩
  · intro l h
    simp only [clampLimit, MAX_LIMIT]
    omega
  · intro l h
    simp only [clampLimit, MAX_LIMIT]
    omega
  · intro lim
    cases lim with
    | none => exact ⟨by decide, by decide⟩
    | some l =>
      simp only [clampLimit, MAX_LIMIT]
      constructor <;> omega
  · intro articles query lim
    simpa [searchArticles] using
      List.length_take_le (effectiveLimit lim)
        (articles.filter (searchPred (jsToLower query)))
  · intro articles query lim
    simpa [searchArticlesByTitle] using
      List.length_take_le (effectiveLimit lim)
        (articles.filter (titleMatch (jsToLower query)))
  · intro parse articles authorName lim
    simpa [filterArticlesByAuthor] using
      List.length_take_le (effectiveLimit lim)
        ((articles.filter (authorFilterPred (jsToLower authorName))).mergeSort
          (dateDescLE parse))
  · intro parse articles startDate endDate lim res h
    unfold filterArticlesByDateRange at h
    split at h
    · exact absurd h (by simp)
    · split at h
      · exact absurd h (by simp)
      · simp only [Except.ok.injEq] at h
        subst h
        exact List.length_take_le _ _

/-- C1 (witness): the amended clamping theorem applied at limits 150, -5 and
at a concrete empty-corpus date-range call. -/
theorem c1_effective_limit_clamping_witness :
    clampLimit (some 150) = 100 ∧ clampLimit (some (-5)) = 1 ∧
    ([] : List Article).length ≤ effectiveLimit (some 3) := by
  have h := c1_effective_limit_clamping
  refine ⟨h.2.1 150 (by decide), h.2.2.1 (-5) (by decide),
    h.2.2.2.2.2.2.2 isoDateParse [] none none (some 3) [] ?_⟩
  simp [filterArticlesByDateRange, rangeMatches, sortByDateDesc, jsTruthyStr]

/-- Extract the success shape of `filterArticlesByDateRange`. -/
lemma filterByDateRange_ok {parse : String → Option Int}
    {articles : List Article} {startDate endDate : Option String}
    {lim : Option Int} {res : List Article}
    (h : filterArticlesByDateRange parse articles startDate endDate lim =
      Except.ok res) :
    res = (sortByDateDesc parse
      (rangeMatches parse articles startDate endDate)).take
      (effectiveLimit lim) := by
  unfold filterArticlesByDateRange at h
  split at h
  · exact absurd h (by simp)
  · split at h
    · exact absurd h (by simp)
    · simp only [Except.ok.injEq] at h
      exact h.symm

/-- Membership in the pre-sort filtered list implies corpus membership and
both inclusive bound conditions (where the bound is truthy). -/
lemma mem_rangeMatches {parse : String → Option Int} {articles : List Article}
    {startDate endDate : Option String} {a : Article}
    (h : a ∈ rangeMatches parse articles startDate endDate) :
    a ∈ articles ∧
      (jsTruthyStr startDate = true →
        startBoundPred parse (startDate.getD "") a = true) ∧
      (jsTruthyStr endDate = true →
        endBoundPred parse (endDate.getD "") a = true) := by
  unfold rangeMatches at h
  cases hsd : jsTruthyStr startDate <;> cases hed : jsTruthyStr endDate <;>
    simp [hsd, hed, List.mem_filter] at h <;> simp [hsd, hed] <;> tauto

/-- C3 (counterexample): an empty-string start bound is a provided,
unparseable bound, yet the call succeeds (JS truthiness treats `""` like an
omitted bound), contradicting the claimed "error iff a provided bound is
unparseable". -/
theorem c3_empty_bound_counterexample :
    isValidDate isoDateParse "" = false ∧
    filterArticlesByDateRange isoDateParse [demoArticleA] (some "") none
      none = Except.ok [demoArticleA] := by
  constructor
  · decide
  · simp [filterArticlesByDateRange, rangeMatches, sortByDateDesc,
      jsTruthyStr, isValidDate, effectiveLimit, clampLimit, DEFAULT_LIMIT]

/-- C3 (amended): `filterArticlesByDateRange` raises a descriptive validation
error iff a provided bound is truthy (non-empty) and unparseable; an
empty-string or omitted bound is treated as unbounded on that side, and on
success both bounds hold inclusively for every returned article. -/
theorem c3_date_bound_validation :
    (∀ (parse : String → Option Int) (articles : List Article)
        (startDate endDate : Option String) (lim : Option Int),
      (∃ e, filterArticlesByDateRange parse articles startDate endDate lim =
        Except.error e) ↔
        ((jsTruthyStr startDate = true ∧
            isValidDate parse (startDate.getD "") = false) ∨
         (jsTruthyStr endDate = true ∧
            isValidDate parse (endDate.getD "") = false))) ∧
    (∀ (parse : String → Option Int) (articles : List Article)
        (startDate endDate : Option String) (lim : Option Int)
        (res : List Article),
      filterArticlesByDateRange parse articles startDate endDate lim =
          Except.ok res →
        ∀ a ∈ res,
          (jsTruthyStr startDate = true →
            startBoundPred parse (startDate.getD "") a = true) ∧
          (jsTruthyStr endDate = true →
            endBoundPred parse (endDate.getD "") a = true)) := by
  constructor
  · intro parse articles startDate endDate lim
    unfold filterArticlesByDateRange
    constructor
    · intro ⟨e, he⟩
      by_cases h1 : (jsTruthyStr startDate &&
          !isValidDate parse (startDate.getD "")) = true
      · simp only [Bool.and_eq_true, Bool.not_eq_true'] at h1
        exact Or.inl h1
      · rw [if_neg (by simpa using h1)] at he
        by_cases h2 : (jsTruthyStr endDate &&
            !isValidDate parse (endDate.getD "")) = true
        · simp only [Bool.and_eq_true, Bool.not_eq_true'] at h2
          exact Or.inr h2
        · rw [if_neg (by simpa using h2)] at he
          exact absurd he (by simp)
    · intro h
      by_cases h1 : (jsTruthyStr startDate &&
          !isValidDate parse (startDate.getD "")) = true
      · rw [if_pos h1]
        exact ⟨_, rfl⟩
      · rw [if_neg (by simpa using h1)]
        have h2 : (jsTruthyStr endDate &&
            !isValidDate parse (endDate.getD "")) = true := by
          rcases h with ⟨ha, hb⟩ | ⟨ha, hb⟩
          · exact absurd (by simp [ha, hb] : (jsTruthyStr startDate &&
              !isValidDate parse (startDate.getD "")) = true) h1
          · simp [ha, hb]
        rw [if_pos h2]
        exact ⟨_, rfl⟩
  · intro parse articles startDate endDate lim res h a ha
    have hres := filterByDateRange_ok h
    subst hres
    have hmem : a ∈ rangeMatches parse articles startDate endDate := by
      have h1 : a ∈ sortByDateDesc parse
          (rangeMatches parse articles startDate endDate) :=
        (List.take_sublist _ _).subset ha
      simpa [sortByDateDesc] using h1
    exact (mem_rangeMatches hmem).2

/-- C3 (witness): the amended validation theorem applied at the spec's
`"not-a-date"` bound (error) and at a successful bounded call. -/
theorem c3_date_bound_validation_witness :
    (∃ e, filterArticlesByDateRange isoDateParse [] (some "not-a-date") none
      none = Except.error e) ∧
    (∀ a ∈ ([demoArticleA] : List Article),
      (jsTruthyStr (some "2024-01-01") = true →
        startBoundPred isoDateParse ((some "2024-01-01").getD "") a = true) ∧
      (jsTruthyStr (none : Option String) = true →
        endBoundPred isoDateParse ((none : Option String).getD "") a =
          true)) := by
  constructor
  · exact (c3_date_bound_validation.1 isoDateParse [] (some "not-a-date")
      none none).mpr (Or.inl ⟨by decide, by decide⟩)
  · refine c3_date_bound_validation.2 isoDateParse [demoArticleA]
      (some "2024-01-01") none none [demoArticleA] ?_
    have h1 : rangeMatches isoDateParse [demoArticleA] (some "2024-01-01")
        none = [demoArticleA] := by decide
    have h2 : sortByDateDesc isoDateParse [demoArticleA] = [demoArticleA] := by
      simp [sortByDateDesc]
    unfold filterArticlesByDateRange
    rw [if_neg (by decide), if_neg (by decide), h1, h2]
    exact congrArg Except.ok (by decide)

/-- C8 (counterexample): in production with no configured allow-list, a
request from an unlisted origin gets a specific allowed origin that is NOT
the request's origin echoed back, yet credentials are still advertised. -/
theorem c8_credentials_counterexample :
    getCorsHeaders false none (some "https://evil.example") =
      { allowOrigin := "https://chatgpt.com", allowCredentials := true } ∧
    "https://chatgpt.com" ≠ "https://evil.example" := by
  exact ⟨by decide, by decide⟩

/-- C8 (amended): credentials are advertised exactly when the resolved
`Access-Control-Allow-Origin` is a specific (non-wildcard) value — which in
production may be a configured or default origin rather than the request's
origin; in non-production mode any truthy request origin is echoed back, and
an absent/empty origin resolves to the wildcard with no credentials. -/
theorem c8_cors_credentials_policy :
    (∀ (isDevelopment : Bool) (env requestOrigin : Option String),
      (getCorsHeaders isDevelopment env requestOrigin).allowCredentials =
        ((getCorsHeaders isDevelopment env requestOrigin).allowOrigin !=
          "*")) ∧
    (∀ (env requestOrigin : Option String),
      jsTruthyStr requestOrigin = true →
        (getCorsHeaders true env requestOrigin).allowOrigin =
          requestOrigin.getD "") ∧
    (∀ (env requestOrigin : Option String),
      jsTruthyStr requestOrigin = false →
        (getCorsHeaders true env requestOrigin).allowOrigin = "*" ∧
        (getCorsHeaders true env requestOrigin).allowCredentials = false) := by
  refine ⟨fun _ _ _ => rfl, ?_, ?_⟩
  · intro env requestOrigin h
    simp [getCorsHeaders, resolveAllowedOrigin, h]
  · intro env requestOrigin h
    constructor <;>
      simp [getCorsHeaders, resolveAllowedOrigin, h]

/-- C8 (witness): the amended policy theorem applied at a development-mode
request from `https://example.test` and at an absent origin. -/
theorem c8_cors_credentials_policy_witness :
    (getCorsHeaders true none (some "https://example.test")).allowOrigin =
      "https://example.test" ∧
    (getCorsHeaders true none none).allowOrigin = "*" := by
  exact ⟨c8_cors_credentials_policy.2.1 none (some "https://example.test")
      (by decide),
    (c8_cors_credentials_policy.2.2 none none (by decide)).1⟩

/-- The empty pattern is a substring of every character list. -/
lemma listHasSub_nil (l : List Char) : listHasSub [] l = true := by
  cases l <;> simp [listHasSub, listStartsWith, List.isEmpty]

/-- JS `s.includes("")` is always true. -/
lemma jsIncludes_empty (s : String) : jsIncludes s "" = true := by
  have h : ("" : String).data = [] := rfl
  simp [jsIncludes, h, listHasSub_nil]

/-- The effective limit is always at least one. -/
lemma one_le_effectiveLimit (lim : Option Int) : 1 ≤ effectiveLimit lim := by
  cases lim with
  | none => decide
  | some l =>
    simp only [effectiveLimit, clampLimit, MAX_LIMIT]
    omega

/-- C10: the empty search query matches every article (the empty string is a
substring of every title), so `searchArticles` returns the first
effective-limit articles in load order, and a non-empty corpus never yields
an empty result. -/
theorem c10_empty_query_matches_all :
    (∀ (articles : List Article) (lim : Option Int),
      searchArticles articles "" lim = articles.take (effectiveLimit lim)) ∧
    (∀ (articles : List Article) (lim : Option Int),
      articles ≠ [] → searchArticles articles "" lim ≠ []) := by
  have hlow : jsToLower "" = "" := rfl
  have hpred : ∀ (articles : List Article),
      articles.filter (searchPred (jsToLower "")) = articles := by
    intro articles
    apply List.filter_eq_self.mpr
    intro a _
    simp [searchPred, titleMatch, hlow, jsIncludes_empty]
  have hmain : ∀ (articles : List Article) (lim : Option Int),
      searchArticles articles "" lim = articles.take (effectiveLimit lim) := by
    intro articles lim
    simp [searchArticles, hpred]
  refine ⟨hmain, ?_⟩
  intro articles lim hne
  rw [hmain]
  cases articles with
  | nil => exact absurd rfl hne
  | cons a as =>
    have h1 := one_le_effectiveLimit lim
    cases heff : effectiveLimit lim with
    | zero => omega
    | succ n => simp [List.take]

/-- C10 (witness): the empty-query theorem applied to a singleton corpus. -/
theorem c10_empty_query_matches_all_witness :
    searchArticles [demoArticleA] "" none ≠ [] :=
  c10_empty_query_matches_all.2 [demoArticleA] none (by decide)

/-- C7 (counterexample): the search term `"editorial"` is a substring of the
derived author display name (`'Editorial team'`) of an authorless article,
yet `searchArticles` does not return it — only the raw author field is
searched, never the fallback display name. -/
theorem c7_display_name_counterexample :
    searchArticles [demoArticleNoAuthor] "editorial" (some 10) = [] ∧
    jsIncludes (jsToLower (getAuthorName demoArticleNoAuthor))
      (jsToLower "editorial") = true := by
  exact ⟨by decide, by decide⟩

/-- C7 (amended): `searchArticles` returns exactly the first effective-limit
articles, in load order, whose lowercased title, lead, or raw author name
(when an author is derivable from the record — the `'Editorial team'`
fallback is not searched) contains the lowercased term; on the spec's
two-article corpus, `search("x", 10)` returns both in load order. -/
theorem c7_search_semantics :
    (∀ (articles : List Article) (query : String) (lim : Option Int),
      searchArticles articles query lim =
        (articles.filter (searchPred (jsToLower query))).take
          (effectiveLimit lim)) ∧
    (∀ (articles : List Article) (query : String) (lim : Option Int),
      (searchArticles articles query lim).Sublist articles) ∧
    (∀ (articles : List Article) (query : String) (lim : Option Int)
        (a : Article), a ∈ searchArticles articles query lim →
      searchPred (jsToLower query) a = true ∧ a ∈ articles) ∧
    (searchArticles [demoArticleA, demoArticleB] "x" (some 10) =
      [demoArticleA, demoArticleB]) := by
  refine ⟨fun _ _ _ => rfl, ?_, ?_, by decide⟩
  · intro articles query lim
    exact (List.take_sublist _ _).trans (List.filter_sublist _)
  · intro articles query lim a ha
    have h1 : a ∈ articles.filter (searchPred (jsToLower query)) :=
      (List.take_sublist _ _).subset ha
    exact ⟨List.of_mem_filter h1, List.mem_of_mem_filter h1⟩

/-- C7 (witness): the amended search theorem applied to the spec's
two-article corpus at the term `"x"`. -/
theorem c7_search_semantics_witness :
    searchPred (jsToLower "x") demoArticleA = true ∧
    demoArticleA ∈ [demoArticleA, demoArticleB] :=
  c7_search_semantics.2.2.1 [demoArticleA, demoArticleB] "x" (some 10)
    demoArticleA (by decide)

/-- Unpack `isLoadedArticle`: all three mandatory fields are present, trim to
non-empty strings, and the trimmed publication date parses. -/
lemma of_isLoadedArticle {parse : String → Option Int} {r : RawArticle}
    (h : isLoadedArticle parse r = true) :
    ∃ s t d, r.slug = some s ∧ r.title = some t ∧
      r.publicationDate = some d ∧ jsTrim s ≠ "" ∧ jsTrim t ≠ "" ∧
      (parse (jsTrim d)).isSome = true := by
  unfold isLoadedArticle at h
  rcases hs : r.slug with _ | s <;> rcases ht : r.title with _ | t <;>
    rcases hd : r.publicationDate with _ | d <;>
      rw [hs, ht, hd] at h <;> simp [jsTruthyStr] at h
  exact ⟨s, t, d, rfl, rfl, rfl, h.1.1.1, h.1.1.2, h.2⟩

/-- C6: every article in the runtime index (list and slug lookup) has a
non-empty trimmed slug, a non-empty trimmed title and a parseable publication
date, and arises from a raw record that passed `isLoadedArticle`; failing
records are excluded at load time. -/
theorem c6_load_invariant :
    (∀ (parse : String → Option Int) (raws : List RawArticle) (a : Article),
      a ∈ loadMagazineArticles parse raws →
        a.slug ≠ "" ∧ a.title ≠ "" ∧
        (parse a.publicationDate).isSome = true ∧
        ∃ r ∈ raws, isLoadedArticle parse r = true ∧ a = loadArticle r) ∧
    (∀ (parse : String → Option Int) (raws : List RawArticle) (slug : String)
        (a : Article),
      lookupBySlug (loadMagazineArticles parse raws) slug = some a →
        a ∈ loadMagazineArticles parse raws) := by
  constructor
  · intro parse raws a ha
    unfold loadMagazineArticles at ha
    rcases List.mem_map.mp ha with ⟨r, hrmem, hra⟩
    have hrraws : r ∈ raws := List.mem_of_mem_filter hrmem
    have hrpass : isLoadedArticle parse r = true := List.of_mem_filter hrmem
    rcases of_isLoadedArticle hrpass with
      ⟨s, t, d, hs, ht, hd, hsne, htne, hdparse⟩
    have hslug : a.slug = jsTrim s := by
      rw [← hra]
      simp [loadArticle, hs]
    have htitle : a.title = jsTrim t := by
      rw [← hra]
      simp [loadArticle, ht]
    have hdate : a.publicationDate = jsTrim d := by
      rw [← hra]
      simp [loadArticle, hd]
    refine ⟨by rw [hslug]; exact hsne, by rw [htitle]; exact htne,
      by rw [hdate]; exact hdparse, r, hrraws, hrpass, hra.symm⟩
  · intro parse raws slug a ha
    unfold lookupBySlug at ha
    exact (List.mem_reverse).mp (List.mem_of_find?_eq_some ha)

/-- C6 (witness): the load invariant applied to a concrete one-record
corpus. -/
theorem c6_load_invariant_witness :
    demoArticleA.slug ≠ "" ∧ demoArticleA.title ≠ "" ∧
    (isoDateParse demoArticleA.publicationDate).isSome = true ∧
    ∃ r ∈ [demoRaw], isLoadedArticle isoDateParse r = true ∧
      demoArticleA = loadArticle r :=
  c6_load_invariant.1 isoDateParse [demoRaw] demoArticleA (by decide)

/-- The lexicographic order is reflexive. -/
lemma listLexLE_refl : ∀ (a : List Char), listLexLE a a = true
  | [] => rfl
  | x :: xs => by
    have h : charLT x x = false := by simp [charLT]
    simp only [listLexLE, h, Bool.false_eq_true, if_false]
    exact listLexLE_refl xs

/-- The lexicographic order is total. -/
lemma listLexLE_total : ∀ (a b : List Char),
    (listLexLE a b || listLexLE b a) = true := by
  intro a
  induction a with
  | nil => intro b; simp [listLexLE]
  | cons x xs ih =>
    intro b
    cases b with
    | nil => simp [listLexLE]
    | cons y ys =>
      by_cases h1 : charLT x y = true
      · simp [listLexLE, h1]
      · by_cases h2 : charLT y x = true
        · simp [listLexLE, h1, h2]
        · simpa [listLexLE, h1, h2] using ih ys

/-- The lexicographic order is transitive. -/
lemma listLexLE_trans : ∀ (a b c : List Char),
    listLexLE a b = true → listLexLE b c = true → listLexLE a c = true := by
  intro a
  induction a with
  | nil => intro b c _ _; simp [listLexLE]
  | cons x xs ih =>
    intro b c hab hbc
    cases b with
    | nil => simp [listLexLE] at hab
    | cons y ys =>
      cases c with
      | nil => simp [listLexLE] at hbc
      | cons z zs =>
        simp only [listLexLE, charLT] at hab hbc ⊢
        by_cases hxy : x.toNat < y.toNat
        · by_cases hyz : y.toNat < z.toNat
          · rw [if_pos (by simpa using show x.toNat < z.toNat by omega)]
          · rw [if_neg (by simpa using hyz)] at hbc
            by_cases hzy : z.toNat < y.toNat
            · rw [if_pos (by simpa using hzy)] at hbc
              exact absurd hbc (by simp)
            · rw [if_pos (by simpa using show x.toNat < z.toNat by omega)]
        · rw [if_neg (by simpa using hxy)] at hab
          by_cases hyx : y.toNat < x.toNat
          · rw [if_pos (by simpa using hyx)] at hab
            exact absurd hab (by simp)
          · rw [if_neg (by simpa using hyx)] at hab
            by_cases hyz : y.toNat < z.toNat
            · rw [if_pos (by simpa using show x.toNat < z.toNat by omega)]
            · rw [if_neg (by simpa using hyz)] at hbc
              by_cases hzy : z.toNat < y.toNat
              · rw [if_pos (by simpa using hzy)] at hbc
                exact absurd hbc (by simp)
              · rw [if_neg (by simpa using hzy)] at hbc
                rw [if_neg (by simpa using show ¬x.toNat < z.toNat by omega),
                  if_neg (by simpa using show ¬z.toNat < x.toNat by omega)]
                exact ih ys zs hab hbc

/-- Totality of `stringLE`, in the form `sorted_mergeSort` expects. -/
lemma stringLE_total : ∀ (a b : String), (stringLE a b || stringLE b a) = true :=
  fun a b => listLexLE_total a.data b.data

/-- Transitivity of `stringLE`, in the form `sorted_mergeSort` expects. -/
lemma stringLE_trans : ∀ (a b c : String),
    stringLE a b = true → stringLE b c = true → stringLE a c = true :=
  fun a b c => listLexLE_trans a.data b.data c.data

/-- In a list sorted by `stringLE`, the last element is a maximum. -/
lemma stringLE_getLast?_max :
    ∀ (l : List String), l.Pairwise (fun a b => stringLE a b = true) →
      ∀ m, l.getLast? = some m → ∀ x ∈ l, stringLE x m = true := by
  intro l
  induction l with
  | nil => intro _ m hm; simp at hm
  | cons a t ih =>
    intro hp m hm x hx
    cases t with
    | nil =>
      simp at hm hx
      subst hm; subst hx
      exact listLexLE_refl _
    | cons b t' =>
      rw [List.getLast?_cons_cons] at hm
      rcases List.mem_cons.mp hx with hxa | hxt
      · subst hxa
        have hmmem : m ∈ b :: t' :=
          List.mem_of_mem_getLast? (Option.mem_def.mpr hm)
        exact (List.pairwise_cons.mp hp).1 m hmmem
      · exact ih (List.pairwise_cons.mp hp).2 m hm x hxt

/-- C4: widget asset resolution precedence — a prebuilt document wins and is
returned verbatim; otherwise the lexicographically-last hashed candidate
`{name}-{hash}.{ext}` is selected; otherwise the un-hashed `{name}.{ext}`
when listed. -/
theorem c4_asset_resolution_precedence :
    (∀ (fsys : WidgetFS) (entryName rootId html : String),
      fsys.distHtml = some html →
        buildWidgetHtml fsys entryName rootId = html) ∧
    (∀ (entryName extension : String) (files : List String),
      hashedCandidates entryName extension files ≠ [] →
        ∃ m, resolveWidgetAsset entryName extension files = Except.ok m ∧
          m ∈ hashedCandidates entryName extension files ∧
          ∀ c ∈ hashedCandidates entryName extension files,
            stringLE c m = true) ∧
    (∀ (entryName extension : String) (files : List String),
      hashedCandidates entryName extension files = [] →
        files.contains (entryName ++ extension) = true →
          resolveWidgetAsset entryName extension files =
            Except.ok (entryName ++ extension)) := by
  refine ⟨?_, ?_, ?_⟩
  · intro fsys entryName rootId html h
    simp [buildWidgetHtml, buildWidgetHtmlCore, h]
  · intro entryName extension files hne
    set cands := hashedCandidates entryName extension files with hcands
    have hsortne : cands.mergeSort stringLE ≠ [] := by
      intro hcontra
      exact hne (by simpa using congrArg List.length hcontra)
    cases hm : (cands.mergeSort stringLE).getLast? with
    | none => exact absurd (List.getLast?_eq_none_iff.mp hm) hsortne
    | some m =>
    refine ⟨m, ?_, ?_, ?_⟩
    · unfold resolveWidgetAsset
      rw [← hcands, hm]
    · have : m ∈ cands.mergeSort stringLE :=
        List.mem_of_mem_getLast? (Option.mem_def.mpr hm)
      exact (List.mem_mergeSort).mp this
    · intro c hc
      exact stringLE_getLast?_max (cands.mergeSort stringLE)
        (List.sorted_mergeSort stringLE_trans stringLE_total cands) m hm c
        ((List.mem_mergeSort).mpr hc)
  · intro entryName extension files hempty hcontains
    unfold resolveWidgetAsset
    rw [hempty]
    simp only [List.mergeSort_nil, List.getLast?_nil]
    rw [if_pos hcontains]

/-- C4 (witness): precedence applied at a concrete file system — a prebuilt
document, a hashed pair with two js candidates, and an un-hashed css. -/
theorem c4_asset_resolution_precedence_witness :
    buildWidgetHtml { distHtml := some "<html>prebuilt</html>" }
      "article-list" "article-list-root" = "<html>prebuilt</html>" ∧
    (∃ m, resolveWidgetAsset "article-list" ".js"
        ["article-list-a1.js", "article-list-b2.js", "article-list.css"] =
          Except.ok m ∧
      m ∈ hashedCandidates "article-list" ".js"
        ["article-list-a1.js", "article-list-b2.js", "article-list.css"] ∧
      ∀ c ∈ hashedCandidates "article-list" ".js"
        ["article-list-a1.js", "article-list-b2.js", "article-list.css"],
        stringLE c m = true) ∧
    resolveWidgetAsset "article-list" ".css"
        ["article-list-a1.js", "article-list-b2.js", "article-list.css"] =
      Except.ok ("article-list" ++ ".css") := by
  refine ⟨c4_asset_resolution_precedence.1 _ "article-list"
      "article-list-root" "<html>prebuilt</html>" rfl,
    c4_asset_resolution_precedence.2.1 "article-list" ".js" _ (by decide),
    c4_asset_resolution_precedence.2.2 "article-list" ".css" _ (by decide)
      (by decide)⟩

/-- C5: widget resolution never propagates a failure — every internal error
of the build pipeline is recovered by the fallback document or the minimal
placeholder, initialization always yields a descriptor object in the pure
model (so consumers handle `none` only as the degraded mode), and a tool
call with no widget descriptor returns a valid single-block text-only
response with no structured payload. -/
theorem c5_widget_failure_graceful :
    (∀ (fsys : WidgetFS) (entryName rootId e : String),
      buildWidgetHtmlCore fsys entryName rootId = Except.error e →
        buildWidgetHtml fsys entryName rootId = widgetFallbackHtml fsys) ∧
    (∀ (fsys : WidgetFS) (entryName rootId : String),
      fsys.distHtml = none → fsys.assetsDir = none →
        buildWidgetHtml fsys entryName rootId =
          "<div>Widget unavailable</div>") ∧
    (∀ (fsys : WidgetFS), (initializeArticleListWidget fsys).isSome = true) ∧
    (∀ (fmtDate : String → String) (articles : List Article) (query : String)
        (limit : Int),
      (searchToolCall fmtDate none articles query limit).hasStructuredContent
          = false ∧
      (searchToolCall fmtDate none articles query limit).content.length =
        1) := by
  refine ⟨?_, ?_, fun _ => rfl, fun _ _ _ _ => ⟨rfl, rfl⟩⟩
  · intro fsys entryName rootId e h
    unfold buildWidgetHtml
    rw [h]
  · intro fsys entryName rootId h1 h2
    simp [buildWidgetHtml, buildWidgetHtmlCore, widgetFallbackHtml, h1, h2]

/-- C5 (witness): the graceful-degradation theorem applied at a file system
with neither a prebuilt document nor an asset directory. -/
theorem c5_widget_failure_graceful_witness :
    buildWidgetHtml { distHtml := none, assetsDir := none } "article-list"
      "article-list-root" = "<div>Widget unavailable</div>" :=
  c5_widget_failure_graceful.2.1
    { distHtml := none, assetsDir := none } "article-list"
    "article-list-root" rfl rfl

/-- Transitivity of the descending-date comparator. -/
lemma dateDescLE_trans (parse : String → Option Int) :
    ∀ a b c, dateDescLE parse a b = true → dateDescLE parse b c = true →
      dateDescLE parse a c = true := by
  intro a b c hab hbc
  simp only [dateDescLE, decide_eq_true_eq] at hab hbc ⊢
  omega

/-- Totality of the descending-date comparator. -/
lemma dateDescLE_total (parse : String → Option Int) :
    ∀ a b, (dateDescLE parse a b || dateDescLE parse b a) = true := by
  intro a b
  simp only [dateDescLE, Bool.or_eq_true, decide_eq_true_eq]
  omega

/-- Stability of the descending-date sort: the articles carrying any fixed
timestamp appear in the sorted list exactly as in the input list. -/
lemma mergeSort_dateKey_filter (parse : String → Option Int)
    (l : List Article) (t : Int) :
    (l.mergeSort (dateDescLE parse)).filter (fun a => dateKey parse a == t) =
      l.filter (fun a => dateKey parse a == t) := by
  set p := fun a => dateKey parse a == t with hp
  set c := l.filter p with hc
  have hkeys : ∀ a ∈ c, dateKey parse a = t := by
    intro a ha
    simpa [hp] using List.of_mem_filter ha
  have hpc : c.Pairwise (fun a b => dateDescLE parse a b = true) :=
    List.pairwise_of_forall_mem_list (fun a ha b hb => by
      simp only [dateDescLE, decide_eq_true_eq, hkeys a ha, hkeys b hb]
      exact le_refl t)
  have hcsub : List.Sublist c (l.mergeSort (dateDescLE parse)) :=
    List.sublist_mergeSort (dateDescLE_trans parse) (dateDescLE_total parse)
      hpc (List.filter_sublist l)
  have hcfix : c.filter p = c :=
    List.filter_eq_self.mpr (fun a ha => List.of_mem_filter ha)
  have hsub2 : List.Sublist c ((l.mergeSort (dateDescLE parse)).filter p) := by
    have h := hcsub.filter p
    rwa [hcfix] at h
  have hlen : ((l.mergeSort (dateDescLE parse)).filter p).length =
      c.length := by
    have hperm := (List.mergeSort_perm l (dateDescLE parse)).filter p
    simpa [hc] using hperm.length_eq
  exact (List.Sublist.eq_of_length hsub2 hlen.symm).symm

/-- The truncated sorted list is sorted (descending by timestamp). -/
lemma sortTake_pairwise (parse : String → Option Int) (l : List Article)
    (n : Nat) :
    ((l.mergeSort (dateDescLE parse)).take n).Pairwise
      (fun a b => dateDescLE parse a b = true) :=
  List.Pairwise.sublist (List.take_sublist n _)
    (List.sorted_mergeSort (dateDescLE_trans parse) (dateDescLE_total parse) l)

/-- Ties in the truncated sorted list keep the original order of any
super-list of the input. -/
lemma sortTake_filter_sublist (parse : String → Option Int)
    {l articles : List Article} (hsub : List.Sublist l articles) (n : Nat)
    (t : Int) :
    List.Sublist
      (((l.mergeSort (dateDescLE parse)).take n).filter
        (fun a => dateKey parse a == t))
      (articles.filter (fun a => dateKey parse a == t)) := by
  have h1 := (List.take_sublist n (l.mergeSort (dateDescLE parse))).filter
    (fun a => dateKey parse a == t)
  rw [mergeSort_dateKey_filter] at h1
  exact h1.trans (hsub.filter _)

/-- Every match dropped by the truncation is no newer than every match
kept: truncation after sorting keeps the globally newest matches. -/
lemma sortTake_newest (parse : String → Option Int) (l : List Article)
    (n : Nat) :
    ∀ a ∈ l, a ∉ (l.mergeSort (dateDescLE parse)).take n →
      ∀ b ∈ (l.mergeSort (dateDescLE parse)).take n,
        dateKey parse a ≤ dateKey parse b := by
  intro a ha hnott b hb
  set m := l.mergeSort (dateDescLE parse) with hm
  have ham : a ∈ m := by
    rw [hm]
    exact (List.mem_mergeSort).mpr ha
  have hsorted : m.Pairwise (fun x y => dateDescLE parse x y = true) := by
    rw [hm]
    exact List.sorted_mergeSort (dateDescLE_trans parse)
      (dateDescLE_total parse) l
  have hpw : (m.take n ++ m.drop n).Pairwise
      (fun x y => dateDescLE parse x y = true) := by
    rw [List.take_append_drop]
    exact hsorted
  have hrel := (List.pairwise_append.mp hpw).2.2
  have hadrop : a ∈ m.drop n := by
    have ham2 : a ∈ m.take n ++ m.drop n := by
      rw [List.take_append_drop]
      exact ham
    rcases List.mem_append.mp ham2 with h | h
    · exact absurd h hnott
    · exact h
  have hba := hrel b hb a hadrop
  simpa [dateDescLE, decide_eq_true_eq] using hba

/-- The pre-sort filtered list is a sublist of the corpus. -/
lemma rangeMatches_sublist (parse : String → Option Int)
    (articles : List Article) (startDate endDate : Option String) :
    List.Sublist (rangeMatches parse articles startDate endDate)
      articles := by
  unfold rangeMatches
  by_cases h1 : jsTruthyStr startDate = true
  · by_cases h2 : jsTruthyStr endDate = true
    · simp only [if_pos h1, if_pos h2]
      exact (List.filter_sublist _).trans (List.filter_sublist _)
    · simp only [if_pos h1, if_neg h2]
      exact List.filter_sublist _
  · by_cases h2 : jsTruthyStr endDate = true
    · simp only [if_neg h1, if_pos h2]
      exact List.filter_sublist _
    · simp only [if_neg h1, if_neg h2]
      exact List.Sublist.refl _

/-- C2: both date-sorted query operations sort the full match set by
publication date descending before truncating to the effective limit; the
result is pairwise descending by timestamp, ties keep corpus load order
(stable sort), and every match left out is no newer than every match
returned. -/
theorem c2_sort_before_truncate :
    (∀ (parse : String → Option Int) (articles : List Article)
        (startDate endDate : Option String) (lim : Option Int)
        (res : List Article),
      filterArticlesByDateRange parse articles startDate endDate lim =
          Except.ok res →
        res = (sortByDateDesc parse
            (rangeMatches parse articles startDate endDate)).take
            (effectiveLimit lim) ∧
        res.Pairwise (fun a b => dateDescLE parse a b = true) ∧
        (∀ t : Int, List.Sublist
          (res.filter (fun a => dateKey parse a == t))
          (articles.filter (fun a => dateKey parse a == t))) ∧
        (∀ a ∈ rangeMatches parse articles startDate endDate, a ∉ res →
          ∀ b ∈ res, dateKey parse a ≤ dateKey parse b)) ∧
    (∀ (parse : String → Option Int) (articles : List Article)
        (authorName : String) (lim : Option Int),
      (filterArticlesByAuthor parse articles authorName lim).Pairwise
          (fun a b => dateDescLE parse a b = true) ∧
      (∀ t : Int, List.Sublist
          ((filterArticlesByAuthor parse articles authorName lim).filter
            (fun a => dateKey parse a == t))
          (articles.filter (fun a => dateKey parse a == t))) ∧
      (∀ a ∈ articles.filter (authorFilterPred (jsToLower authorName)),
        a ∉ filterArticlesByAuthor parse articles authorName lim →
          ∀ b ∈ filterArticlesByAuthor parse articles authorName lim,
            dateKey parse a ≤ dateKey parse b)) := by
  constructor
  · intro parse articles startDate endDate lim res h
    have hshape := filterByDateRange_ok h
    subst hshape
    refine ⟨rfl, sortTake_pairwise parse _ _, ?_, ?_⟩
    · intro t
      exact sortTake_filter_sublist parse
        (rangeMatches_sublist parse articles startDate endDate)
        (effectiveLimit lim) t
    · intro a ha hnott b hb
      exact sortTake_newest parse _ (effectiveLimit lim) a ha hnott b hb
  · intro parse articles authorName lim
    refine ⟨sortTake_pairwise parse _ _, ?_, ?_⟩
    · intro t
      exact sortTake_filter_sublist parse
        (List.filter_sublist articles) (effectiveLimit lim) t
    · intro a ha hnott b hb
      exact sortTake_newest parse _ (effectiveLimit lim) a ha hnott b hb

/-- C2 (witness): the sort-before-truncate theorem applied at a concrete
three-article corpus containing a publication-date tie. -/
theorem c2_sort_before_truncate_witness :
    demoCorpus.Pairwise (fun a b => dateDescLE isoDateParse a b = true) := by
  have h1 : rangeMatches isoDateParse demoCorpus none none = demoCorpus := by
    decide
  have h2 : sortByDateDesc isoDateParse demoCorpus = demoCorpus :=
    List.mergeSort_of_sorted (by decide)
  have hok : filterArticlesByDateRange isoDateParse demoCorpus none none
      none = Except.ok demoCorpus := by
    unfold filterArticlesByDateRange
    rw [if_neg (by decide), if_neg (by decide), h1, h2]
    exact congrArg Except.ok (by decide)
  exact (c2_sort_before_truncate.1 isoDateParse demoCorpus none none none
    demoCorpus hok).2.1

/-- If every character of `r` fails the first pattern character, prepending
`r` cannot create an occurrence. -/
lemma hasCI_append_of_head_fail (q : Char) (qs : List Char) :
    ∀ (r m : List Char), (∀ c ∈ r, lowerEq c q = false) →
      hasCI (q :: qs) (r ++ m) = hasCI (q :: qs) m := by
  intro r
  induction r with
  | nil => intro m _; rfl
  | cons c r' ih =>
    intro m hfail
    have h1 : lowerEq c q = false := hfail c (List.mem_cons_self c r')
    show hasCI (q :: qs) (c :: (r' ++ m)) = hasCI (q :: qs) m
    simp only [hasCI, startsWithCI, h1, Bool.false_and, Bool.false_or]
    exact ih m (fun x hx => hfail x (List.mem_cons_of_mem c hx))

/-- A case-insensitive prefix of the escaped text whose pattern avoids `<`
was already a prefix of the raw text: the escape only inserts a backslash
right after the `<` of each match. -/
lemma startsWithCI_escapeClose_transfer (word : List Char) :
    ∀ (s : List Char), (∀ p ∈ s, p ≠ '<') →
      ∀ (cs : List Char), startsWithCI s (escapeClose word cs) = true →
        startsWithCI s cs = true := by
  intro s
  induction s with
  | nil => intro _ cs _; rfl
  | cons p ps ih =>
    intro hs cs h
    cases cs with
    | nil => simp [escapeClose, startsWithCI] at h
    | cons c cs' =>
      by_cases hm : startsWithCI ('<' :: '/' :: word) (c :: cs') = true
      · rw [show escapeClose word (c :: cs') = '<' :: '\\' :: '/' ::
            (word ++ escapeClose word (cs'.drop (word.length + 1))) from by
          simp [escapeClose, hm]] at h
        simp only [startsWithCI, Bool.and_eq_true] at h
        have hlt : Char.toLower '<' = '<' := by decide
        have hp : p = '<' := by
          have h1 := h.1
          simp only [lowerEq, hlt, beq_iff_eq] at h1
          exact h1.symm
        exact absurd hp (hs p (List.mem_cons_self p ps))
      · rw [show escapeClose word (c :: cs') = c :: escapeClose word cs'
            from by simp [escapeClose, hm]] at h
        simp only [startsWithCI, Bool.and_eq_true] at h ⊢
        exact ⟨h.1,
          ih (fun x hx => hs x (List.mem_cons_of_mem p hx)) cs' h.2⟩

/-- Core of C9: after escaping, no case-insensitive occurrence of
`</word` remains, provided `word` is lowercase text without `<`. -/
lemma escapeClose_hasCI_false (word : List Char)
    (hA : ∀ c ∈ word, lowerEq c '<' = false)
    (hB : ∀ p ∈ ('/' :: word), p ≠ '<') :
    ∀ (n : Nat) (cs : List Char), cs.length ≤ n →
      hasCI ('<' :: '/' :: word) (escapeClose word cs) = false := by
  intro n
  induction n with
  | zero =>
    intro cs hlen
    have hnil : cs = [] := List.length_eq_zero.mp (Nat.le_zero.mp hlen)
    subst hnil
    simp [escapeClose, hasCI]
  | succ n ih =>
    intro cs hlen
    cases cs with
    | nil => simp [escapeClose, hasCI]
    | cons c cs' =>
      by_cases hm : startsWithCI ('<' :: '/' :: word) (c :: cs') = true
      · rw [show escapeClose word (c :: cs') = '<' :: '\\' :: '/' ::
            (word ++ escapeClose word (cs'.drop (word.length + 1))) from by
          simp [escapeClose, hm]]
        set E := escapeClose word (cs'.drop (word.length + 1)) with hE
        have hrec : hasCI ('<' :: '/' :: word)
            (('\\' :: '/' :: word) ++ E) =
            hasCI ('<' :: '/' :: word) E := by
          apply hasCI_append_of_head_fail
          intro x hx
          rcases List.mem_cons.mp hx with h1 | hx2
          · subst h1; decide
          rcases List.mem_cons.mp hx2 with h2 | hx3
          · subst h2; decide
          · exact hA x hx3
        have hdroplen : (cs'.drop (word.length + 1)).length ≤ n := by
          simp only [List.length_drop, List.length_cons] at hlen ⊢
          omega
        have hIH := ih (cs'.drop (word.length + 1)) hdroplen
        rw [← hE] at hIH
        have hsw : startsWithCI ('<' :: '/' :: word)
            ('<' :: (('\\' :: '/' :: word) ++ E)) = false := by
          have h2 : lowerEq '\\' '/' = false := by decide
          show (lowerEq '<' '<' &&
            (lowerEq '\\' '/' && startsWithCI word (('/' :: word) ++ E))) =
              false
          rw [h2]
          simp
        show (startsWithCI ('<' :: '/' :: word)
            ('<' :: (('\\' :: '/' :: word) ++ E)) ||
          hasCI ('<' :: '/' :: word) (('\\' :: '/' :: word) ++ E)) = false
        rw [hsw, hrec, hIH]
        rfl
      · rw [show escapeClose word (c :: cs') = c :: escapeClose word cs'
            from by simp [escapeClose, hm]]
        have hIH : hasCI ('<' :: '/' :: word) (escapeClose word cs') =
            false := by
          apply ih cs'
          simp only [List.length_cons] at hlen
          omega
        show (startsWithCI ('<' :: '/' :: word) (c :: escapeClose word cs') ||
          hasCI ('<' :: '/' :: word) (escapeClose word cs')) = false
        rw [hIH, Bool.or_false]
        cases hval : startsWithCI ('<' :: '/' :: word)
            (c :: escapeClose word cs') with
        | false => rfl
        | true =>
          exfalso
          simp only [startsWithCI, Bool.and_eq_true] at hval
          have htrans := startsWithCI_escapeClose_transfer word
            ('/' :: word) hB cs' hval.2
          apply hm
          simp only [startsWithCI, Bool.and_eq_true]
          exact ⟨hval.1, htrans⟩

/-- C9: `escapeForInlineScript` leaves no case-insensitive occurrence of
`</script` and `escapeForInlineStyle` leaves no case-insensitive occurrence
of `</style`, so inlined content cannot prematurely terminate its embedding
tag. -/
theorem c9_closing_tag_escaping :
    (∀ source : String,
      hasCI ("</script".data) ((escapeForInlineScript source).data) =
        false) ∧
    (∀ source : String,
      hasCI ("</style".data) ((escapeForInlineStyle source).data) =
        false) := by
  constructor
  · intro source
    exact escapeClose_hasCI_false ("script".data) (by decide) (by decide)
      source.data.length source.data (le_refl _)
  · intro source
    exact escapeClose_hasCI_false ("style".data) (by decide) (by decide)
      source.data.length source.data (le_refl _)
